import Mathlib

/-!
Shallow embedding of the docking/panel host core of `bevy_editor_pls`
(`crates/bevy_editor_pls_core/src/editor.rs` and `editor_inputs.rs`),
together with theorems settling the specification claims about it.

Modelling conventions:
* `TypeId` values are modelled as `Nat`.
* Screen coordinates (`egui::Pos2`, `egui::Rect`) are modelled over `Int`;
  the code only compares coordinates and copies rectangles around, so the
  ordered-field structure of `f32` is all that matters for the claims.
* The `u32` floating-window id counter is modelled as a `Nat` kept below
  `2^32` by reducing modulo `2^32` on increment (release-mode wrapping
  arithmetic).
* Type-erased plugin state (`Box<dyn Any>`) is modelled as a tagged value:
  a state-type tag plus a payload; `downcast_ref` succeeds exactly when the
  tag matches.
* The five type-erased UI callbacks of a window plugin are opaque `egui`
  drawing functions; what the host does with them is captured by the order
  in which it invokes them (e.g. `draw_window_menu_items` below), so the
  callback slots themselves carry no data in the model.
* Logging (`warn!`) is modelled by returning a `Bool` flag alongside the
  state; a Rust `panic!` in an operation is modelled with `Except`/`Option`.
-/

/-- Model of `egui::Pos2` with integer coordinates. -/
structure Pos2 where
  x : Int
  y : Int
deriving DecidableEq, Inhabited

/-- Model of `egui::Rect` (a min/max corner pair). -/
structure Rect where
  min : Pos2
  max : Pos2
deriving DecidableEq, Inhabited

/-- `egui::Rect::contains`: both coordinates within the (inclusive) bounds. -/
def Rect.contains (r : Rect) (p : Pos2) : Bool :=
  decide (r.min.x ≤ p.x ∧ p.x ≤ r.max.x ∧ r.min.y ≤ p.y ∧ p.y ≤ r.max.y)

/-- `egui::Rect::from_min_size`. -/
def Rect.fromMinSize (min : Pos2) (w h : Int) : Rect :=
  ⟨min, ⟨min.x + w, min.y + h⟩⟩

/-- `EditorPointerState` (editor_inputs.rs): current state of the pointer
used inside the editor window. -/
structure EditorPointerState where
  pressActive : Bool
  pressStartInViewport : Bool
  /-- Position of the cursor inside the viewport / game view. -/
  viewportPointerPos : Option Pos2
deriving DecidableEq, Inhabited

/-- `EditorPointerState::is_pointer_in_viewport`. -/
def EditorPointerState.is_pointer_in_viewport (s : EditorPointerState) : Bool :=
  s.viewportPointerPos.isSome

/-- `ActiveEditorInteraction` (editor.rs): which UI domain owns the
in-progress pointer gesture. -/
inductive ActiveEditorInteraction where
  | viewport
  | editor
deriving DecidableEq, Inhabited

/-- Tab identity in the dock tree (`TreeTab`): the singular game view or a
plugin window identified by its `TypeId`. -/
inductive TreeTab where
  | gameView
  | customWindow (windowId : Nat)
deriving DecidableEq, Inhabited

/-- A leaf node of the `egui_dock` tree: an ordered tab list plus the index
of the active tab. -/
structure Pane where
  tabs : List TreeTab
  active : Nat
deriving DecidableEq, Inhabited

/-- Model of `egui_dock::DockState` restricted to what the host uses: the
collection of leaf panes and which one (if any) is focused. -/
structure DockState where
  panes : List Pane
  focused : Option Nat
deriving DecidableEq, Inhabited

/-- Model of `egui_dock::DockState::push_to_focused_leaf`: append the tab to
the focused leaf's tab list and make it that leaf's active tab; with no
focused leaf, a fresh focused leaf holding just the tab is created. -/
def DockState.pushTab (st : DockState) (tab : TreeTab) : DockState :=
  match st.focused with
  | some i =>
    match st.panes[i]? with
    | some pane =>
      { st with panes := st.panes.set i ⟨pane.tabs ++ [tab], pane.tabs.length⟩ }
    | none => st
  | none => { panes := st.panes ++ [⟨[tab], 0⟩], focused := some st.panes.length }

/-- Model of `egui_dock::DockState::focused_leaf`. -/
def DockState.focusedLeaf (st : DockState) : Option Nat :=
  st.focused

/-- Model of `egui_dock::DockState::set_active_tab`: sets the active tab
index of leaf `i` (a no-op when the leaf does not exist). -/
def DockState.setActiveTab (st : DockState) (i t : Nat) : DockState :=
  match st.panes[i]? with
  | some pane => { st with panes := st.panes.set i { pane with active := t } }
  | none => st

/-- `FloatingWindow` (editor.rs): a popped-out plugin window. -/
structure FloatingWindow where
  window : Nat
  id : Nat
  initialPosition : Option Pos2
  currentRect : Rect
deriving DecidableEq, Inhabited

/-- The `u32` modulus used for the floating-window id counter. -/
def u32Mod : Nat := 4294967296

/-- `EditorInternalState` (editor.rs): dock tree, floating windows, the id
counter and the per-redraw set of closed floating windows. -/
structure EditorInternalState where
  state : DockState
  floatingWindows : List FloatingWindow
  nextFloatingWindowId : Nat
  /-- Contains all closed floating windows during current redraw. -/
  closedFloatingWindows : Finset Nat
deriving DecidableEq

/-- `Default for EditorInternalState`: one pane holding the game view. -/
def EditorInternalState.defaultState : EditorInternalState :=
  { state := { panes := [⟨[TreeTab.gameView], 0⟩], focused := none }
    floatingWindows := []
    nextFloatingWindowId := 0
    closedFloatingWindows := ∅ }

/-- `EditorInternalState::push_to_focused_leaf::<W>`: push the plugin's tab
to the focused leaf, then set the active tab of that leaf to `TabIndex(0)`. -/
def EditorInternalState.push_to_focused_leaf (st : EditorInternalState) (w : Nat) :
    EditorInternalState :=
  let ds := st.state.pushTab (TreeTab.customWindow w)
  match ds.focusedLeaf with
  | some i => { st with state := ds.setActiveTab i 0 }
  | none => { st with state := ds }

/-- `EditorInternalState::has_floating_window::<W>`: linear scan of the
floating-window list for the plugin's `TypeId`. -/
def EditorInternalState.has_floating_window (st : EditorInternalState) (w : Nat) : Bool :=
  st.floatingWindows.any (fun fw => fw.window == w)

/-- `EditorInternalState::closed_floating_window::<W>`: membership in the
per-redraw closed set. -/
def EditorInternalState.closed_floating_window (st : EditorInternalState) (w : Nat) : Bool :=
  decide (w ∈ st.closedFloatingWindows)

/-- `EditorInternalState::next_floating_window_id`: return the counter, then
increment it (u32 arithmetic, wrapping modulo `2^32`). -/
def EditorInternalState.next_floating_window_id (st : EditorInternalState) :
    Nat × EditorInternalState :=
  let id := st.nextFloatingWindowId
  (id, { st with nextFloatingWindowId := (st.nextFloatingWindowId + 1) % u32Mod })

/-- Observer: the active tab of the focused pane, if any. -/
def EditorInternalState.focusedActiveTab (st : EditorInternalState) : Option TreeTab :=
  match st.state.focused with
  | some i =>
    match st.state.panes[i]? with
    | some pane => pane.tabs[pane.active]?
    | none => none
  | none => none

/-- `EditorWindowData` (editor.rs): per-plugin registration record.  The
five type-erased UI callback slots are opaque drawing functions and carry no
model data; the metadata the host reads is kept. -/
structure EditorWindowData where
  name : String
  /-- Ui function execution order among other editor windows. -/
  menuBarOrder : Nat
  defaultSize : Int × Int
deriving DecidableEq, Inhabited

/-- A type-erased plugin state blob (`Box<dyn Any + Send + Sync>`): a
state-type tag plus the stored value; `downcast` checks the tag. -/
structure EditorWindowState where
  stateType : Nat
  value : Nat
deriving DecidableEq, Inhabited

/-- An `EditorWindow` implementation `W` as the host sees it: its `TypeId`,
the `TypeId` of `W::State`, `W::NAME`, `W::menu_bar_order()`,
`W::DEFAULT_SIZE` and the value `W::State::default()` produces. -/
structure WindowPlugin where
  typeId : Nat
  stateTypeId : Nat
  name : String
  menuBarOrder : Nat
  defaultSize : Int × Int
  defaultState : Nat
deriving DecidableEq, Inhabited

/-- The `Editor` resource (editor.rs).  `windows` is an `IndexMap` keyed by
`TypeId` (association list in insertion order); `window_states` is a
`HashMap` keyed by `TypeId` (association list, lookup by key). -/
structure Editor where
  onWindow : Nat
  alwaysActive : Bool
  active : Bool
  pointerUsed : Bool
  activeEditorInteraction : Option ActiveEditorInteraction
  listeningForText : Bool
  viewport : Rect
  windows : List (Nat × EditorWindowData)
  windowStates : List (Nat × EditorWindowState)
  pointerState : EditorPointerState
deriving DecidableEq, Inhabited

/-- `Editor::new`. -/
def Editor.new (onWindow : Nat) (alwaysActive : Bool) : Editor :=
  { onWindow := onWindow
    alwaysActive := alwaysActive
    active := alwaysActive
    pointerUsed := false
    activeEditorInteraction := none
    listeningForText := false
    viewport := Rect.fromMinSize ⟨0, 0⟩ 640 480
    windows := []
    windowStates := []
    pointerState := default }

/-- `Editor::set_active`: warn (second component `true`) when deactivating
an always-active editor, then assign the flag unconditionally. -/
def Editor.set_active (e : Editor) (active : Bool) : Editor × Bool :=
  let warned := !active && e.alwaysActive
  ({ e with active := active }, warned)

/-- `Editor::is_in_viewport`. -/
def Editor.is_in_viewport (e : Editor) (pos : Pos2) : Bool :=
  e.viewport.contains pos

/-- `Editor::pointer_used`: the recorded flag, or an editor-owned gesture in
progress. -/
def Editor.pointer_used (e : Editor) : Bool :=
  e.pointerUsed ||
    (match e.activeEditorInteraction with
     | some ActiveEditorInteraction.editor => true
     | _ => false)

/-- The interaction-owner update at the end of `Editor::editor_ui`
(the `match (&self.active_editor_interaction, is_pressed)` block). -/
def interactionStep (cur : Option ActiveEditorInteraction) (isPressed pointerUsed : Bool) :
    Option ActiveEditorInteraction :=
  match cur, isPressed with
  | _, false => none
  | none, true =>
    some (match pointerUsed with
          | true => ActiveEditorInteraction.editor
          | false => ActiveEditorInteraction.viewport)
  | some i, true => some i

/-- Iterated interaction-owner updates over frames in which the button stays
pressed, with an arbitrary `pointer_used` value at each frame. -/
def interactionHeldRun (cur : Option ActiveEditorInteraction) (us : List Bool) :
    Option ActiveEditorInteraction :=
  us.foldl (fun c u => interactionStep c true u) cur

/-- The input segment of `Editor::editor_ui` on the active path: recompute
`pointer_used` from the pointer interact position against the viewport, then
run the interaction-owner update. -/
def Editor.editor_ui_input_phase (e : Editor) (pointerPos : Option Pos2) (isPressed : Bool) :
    Editor :=
  let e := { e with
    pointerUsed := match pointerPos with
      | some p => !(e.is_in_viewport p)
      | none => false }
  { e with activeEditorInteraction := interactionStep e.activeEditorInteraction isPressed e.pointerUsed }

/-- `Editor::setup_input_viewport_state`: recompute whether the pointer is in
the viewport and over a floating window, discard the viewport-local pointer
position when outside the viewport or over a floating window, and maintain
`press_start_in_viewport`. -/
def Editor.setup_input_viewport_state (e : Editor) (pointerPos : Option Pos2)
    (isPointerPressed isPointerHeld : Bool) (internalState : EditorInternalState) : Editor :=
  let pointerInViewport := match pointerPos with
    | some p => e.is_in_viewport p
    | none => false
  let pointerInsideFloatingWindow := match pointerPos with
    | some p => internalState.floatingWindows.any (fun w => w.currentRect.contains p)
    | none => false
  let ps := e.pointerState
  let ps := if !pointerInViewport || pointerInsideFloatingWindow then
      { ps with viewportPointerPos := none }
    else ps
  let ps := if isPointerPressed then
      { ps with pressStartInViewport := pointerInViewport && !pointerInsideFloatingWindow }
    else if !isPointerHeld then
      { ps with pressStartInViewport := false }
    else ps
  { e with pointerState := ps }

/-- `Editor::setup_input_state`: record `press_active`, then run the
viewport input-state update. -/
def Editor.setup_input_state (e : Editor) (pointerPos : Option Pos2)
    (isPointerPressed isPointerHeld : Bool) (internalState : EditorInternalState) : Editor :=
  let e := { e with pointerState := { e.pointerState with pressActive := isPointerHeld } }
  e.setup_input_viewport_state pointerPos isPointerPressed isPointerHeld internalState

/-- `IndexMap::insert`: replace in place when the key exists (returning the
old value), otherwise append; insertion order is preserved. -/
def indexMapInsert (m : List (Nat × EditorWindowData)) (k : Nat) (v : EditorWindowData) :
    List (Nat × EditorWindowData) × Option EditorWindowData :=
  match m.find? (fun kv => kv.1 == k) with
  | some kv => (m.map (fun kv' => if kv'.1 == k then (k, v) else kv'), some kv.2)
  | none => (m ++ [(k, v)], none)

/-- `HashMap::insert`: replace the entry when the key exists, otherwise add
a new entry. -/
def hashMapInsert : List (Nat × EditorWindowState) → Nat → EditorWindowState →
    List (Nat × EditorWindowState)
  | [], k, v => [(k, v)]
  | kv :: rest, k, v =>
    if kv.1 == k then (k, v) :: rest else kv :: hashMapInsert rest k v

/-- `HashMap::get` / `IndexMap` key lookup. -/
def assocLookupState (m : List (Nat × EditorWindowState)) (k : Nat) : Option EditorWindowState :=
  (m.find? (fun kv => kv.1 == k)).map (fun kv => kv.2)

/-- `IndexMap` key lookup for the window registry. -/
def assocLookupData (m : List (Nat × EditorWindowData)) (k : Nat) : Option EditorWindowData :=
  (m.find? (fun kv => kv.1 == k)).map (fun kv => kv.2)

/-- `Editor::add_window::<W>`: insert the registration record, `panic!` (the
`Except.error` case) when the key was already present, otherwise
default-construct the plugin's state blob. -/
def Editor.add_window (e : Editor) (p : WindowPlugin) : Except String Editor :=
  let data : EditorWindowData :=
    { name := p.name, menuBarOrder := p.menuBarOrder, defaultSize := p.defaultSize }
  let inserted := indexMapInsert e.windows p.typeId data
  if inserted.2.isSome then
    Except.error "window already inserted"
  else
    Except.ok { e with
      windows := inserted.1
      windowStates := hashMapInsert e.windowStates p.typeId
        ⟨p.stateTypeId, p.defaultState⟩ }

/-- `Editor::window_state::<W>`: `HashMap` lookup followed by the checked
downcast to `W::State`. -/
def Editor.window_state (e : Editor) (p : WindowPlugin) : Option Nat :=
  (assocLookupState e.windowStates p.typeId).bind
    (fun s => if s.stateType == p.stateTypeId then some s.value else none)

/-- The enumeration step of `draw_window_menu_items`: pair each registered
window's position (registration order) with its `menu_bar_order`. -/
def enumOrders (k : Nat) : List EditorWindowData → List (Nat × Nat)
  | [] => []
  | w :: ws => (k, w.menuBarOrder) :: enumOrders (k + 1) ws

/-- Insertion step of a stable sort on the `menu_bar_order` key: the new
element is placed before the first element whose key is not smaller. -/
def insertSorted (x : Nat × Nat) : List (Nat × Nat) → List (Nat × Nat)
  | [] => [x]
  | y :: ys => if y.2 < x.2 then y :: insertSorted x ys else x :: y :: ys

/-- Stable sort by the `menu_bar_order` key, modelling Rust's stable
`slice::sort_by_key` (the stable sorted rearrangement of a keyed list is
unique, so any stable sorting algorithm computes the same list). -/
def stableSortByOrder : List (Nat × Nat) → List (Nat × Nat)
  | [] => []
  | x :: xs => insertSorted x (stableSortByOrder xs)

/-- `Editor::draw_window_menu_items`: the (window index, menu-bar order)
pairs, sorted stably ascending by order — the sequence in which the
per-window menu-bar UI callbacks are invoked. -/
def draw_window_menu_items (windows : List EditorWindowData) : List (Nat × Nat) :=
  stableSortByOrder (enumOrders 0 windows)

/-- One step of the floating-window pass: if `egui` produced a response for
window `i` (`shown i = some rect`), record the window's resulting on-screen
rectangle into the snapshot entry. -/
def applyShown (shown : Nat → Option Rect) (i : Nat) (w : FloatingWindow) : FloatingWindow :=
  match shown i with
  | some r => { w with currentRect := r }
  | none => w

/-- The rect updates performed on the snapshot copy during the floating
window loop, entry `k` onwards. -/
def updateRects (shown : Nat → Option Rect) : Nat → List FloatingWindow → List FloatingWindow
  | _, [] => []
  | k, w :: ws => applyShown shown k w :: updateRects shown (k + 1) ws

/-- The per-redraw closed set built during the loop: insert the `TypeId` of
every floating window whose chrome the user closed (`closeFlag`), entry `k`
onwards. -/
def closedSetFrom (closeFlag : Nat → Bool) : Nat → List FloatingWindow → Finset Nat
  | _, [] => ∅
  | k, w :: ws =>
    if closeFlag k then insert w.window (closedSetFrom closeFlag (k + 1) ws)
    else closedSetFrom closeFlag (k + 1) ws

/-- The rect-commit loop: walk the live list and the snapshot in lockstep,
copying each snapshot rectangle back (`original[i].current_rect =
snapshot[i].current_rect`).  `none` models the index-out-of-bounds panic
when the snapshot is shorter than the live list. -/
def commitRects : List FloatingWindow → List FloatingWindow → Option (List FloatingWindow)
  | [], _ => some []
  | _ :: _, [] => none
  | w :: ws, s :: ss =>
    (commitRects ws ss).map (fun rest => { w with currentRect := s.currentRect } :: rest)

/-- `Vec::swap_remove i`: replace element `i` with the last element and pop
the last element (out-of-bounds indices on an empty list are never used by
the host; the function is total for definiteness). -/
def swapRemove : List FloatingWindow → Nat → List FloatingWindow
  | [], _ => []
  | x :: xs, i + 1 => x :: swapRemove xs i
  | _ :: xs, 0 =>
    match xs.getLast? with
    | some a => a :: xs.dropLast
    | none => []

/-- The removal loop at the end of the floating-window pass: apply
`swap_remove` for each collected index, iterating the list in reverse
(descending index) order. -/
def removeIndicesRev : List FloatingWindow → List Nat → List FloatingWindow
  | l, [] => l
  | l, i :: is => removeIndicesRev (swapRemove l i) is

/-- `Editor::editor_floating_windows`, as a transformation of the layout
store.  Inputs: which window chromes the user closed this redraw
(`closeFlag`, by index into the snapshot) and the on-screen rectangle `egui`
reported for each shown window (`shown`).  The plugin content callbacks are
drawing code; runs in which they mutate the floating-window list are outside
this model.  Steps: snapshot the list, clear the closed set, update snapshot
rects and collect the closed indices and closed `TypeId`s, commit rects back
to the live list (`none` = index panic), then swap-remove the closed indices
in reverse order. -/
def EditorInternalState.editor_floating_windows (st : EditorInternalState)
    (closeFlag : Nat → Bool) (shown : Nat → Option Rect) : Option EditorInternalState :=
  let snapshot := updateRects shown 0 st.floatingWindows
  let closedIdx := (List.range st.floatingWindows.length).filter (fun i => closeFlag i)
  let cset := closedSetFrom closeFlag 0 snapshot
  match commitRects st.floatingWindows snapshot with
  | none => none
  | some committed =>
    some { st with
      floatingWindows := removeIndicesRev committed closedIdx.reverse
      closedFloatingWindows := cset }

/-- The surviving entries of a floating-window pass, in snapshot order:
entries whose chrome was not closed, with their rectangles updated. -/
def keptAfterPass (st : EditorInternalState) (closeFlag : Nat → Bool)
    (shown : Nat → Option Rect) : List FloatingWindow :=
  ((List.range st.floatingWindows.length).filter (fun i => !closeFlag i)).map
    (fun i => (updateRects shown 0 st.floatingWindows).getD i default)

/-- The internal state after `n` calls to `next_floating_window_id`. -/
def stateAfterIds (st : EditorInternalState) : Nat → EditorInternalState
  | 0 => st
  | n + 1 => ((stateAfterIds st n).next_floating_window_id).2

/-- The id returned by the `(n+1)`-th call to `next_floating_window_id`
(0-indexed call `n`). -/
def idAt (st : EditorInternalState) (n : Nat) : Nat :=
  ((stateAfterIds st n).next_floating_window_id).1

/-- C1: the spec says deactivating an always-active editor logs a warning,
does not crash, and leaves the `active` flag reading `true`.  The code does
log the warning and does not crash, but assigns `active` unconditionally, so
the flag reads `false` afterwards — contradicting both the spec and the
function's own doc comment (which promises a panic that never happens). -/
theorem set_active_on_always_active_deactivates :
    ((Editor.new 0 true).set_active false).2 = true ∧
    (Editor.new 0 true).active = true ∧
    ((Editor.new 0 true).set_active false).1.active = false := by
  refine ⟨rfl, rfl, rfl⟩

/-- C6: the interaction-owner state machine.  With the button not pressed
the owner resets to `None`; a fresh press while the owner is `None` makes
the owner `Editor` exactly when the pointer was used by editor UI and
`Viewport` otherwise; a frame with the button still pressed keeps the owner,
and hence over any sequence of frames with the button held the owner never
changes, whatever `pointer_used` reads at each frame. -/
theorem interaction_owner_state_machine :
    (∀ (cur : Option ActiveEditorInteraction) (u : Bool), interactionStep cur false u = none) ∧
    (∀ u : Bool, interactionStep none true u =
      some (if u then ActiveEditorInteraction.editor else ActiveEditorInteraction.viewport)) ∧
    (∀ (i : ActiveEditorInteraction) (u : Bool), interactionStep (some i) true u = some i) ∧
    (∀ (i : ActiveEditorInteraction) (us : List Bool), interactionHeldRun (some i) us = some i) := by
  refine ⟨?_, ?_, ?_, ?_⟩
  · intro cur u; cases cur <;> rfl
  · intro u; cases u <;> rfl
  · intro i u; rfl
  · intro i us
    induction us with
    | nil => rfl
    | cons u us ih =>
      show interactionHeldRun (interactionStep (some i) true u) us = some i
      exact ih

/-- The id counter after `n` calls from the default internal state. -/
theorem stateAfterIds_counter (n : Nat) :
    (stateAfterIds EditorInternalState.defaultState n).nextFloatingWindowId = n % u32Mod := by
  induction n with
  | zero => rfl
  | succ n ih =>
    show ((stateAfterIds EditorInternalState.defaultState n).nextFloatingWindowId + 1) % u32Mod
        = (n + 1) % u32Mod
    rw [ih, Nat.mod_add_mod]

/-- The value returned by the 0-indexed call `n` from the default state. -/
theorem idAt_default (n : Nat) :
    idAt EditorInternalState.defaultState n = n % u32Mod :=
  stateAfterIds_counter n

/-- C8 counterexample: with the `u32` counter modelled modulo `2^32`, the
call sequence wraps — the 0-indexed call `2^32` returns the same id as call
`0`, and a smaller id than the immediately preceding call — so ids are
neither strictly increasing nor free of repeats over arbitrary sequences. -/
theorem next_floating_window_id_wraps :
    idAt EditorInternalState.defaultState u32Mod = idAt EditorInternalState.defaultState 0 ∧
    idAt EditorInternalState.defaultState (u32Mod - 1) = u32Mod - 1 ∧
    idAt EditorInternalState.defaultState u32Mod
      < idAt EditorInternalState.defaultState (u32Mod - 1) := by
  have h0 : idAt EditorInternalState.defaultState 0 = 0 := idAt_default 0
  have hM : idAt EditorInternalState.defaultState u32Mod = 0 := by
    rw [idAt_default, Nat.mod_self]
  have hP : idAt EditorInternalState.defaultState (u32Mod - 1) = u32Mod - 1 := by
    rw [idAt_default]
    exact Nat.mod_eq_of_lt (by decide)
  refine ⟨by rw [hM, h0], hP, by rw [hM, hP]; decide⟩

/-- The rect-commit loop run against the snapshot the pass itself built
succeeds and reproduces the snapshot: each live entry differs from its
snapshot copy only in `currentRect`, which is exactly the field copied. -/
theorem commitRects_updateRects (shown : Nat → Option Rect) :
    ∀ (l : List FloatingWindow) (k : Nat),
      commitRects l (updateRects shown k l) = some (updateRects shown k l) := by
  intro l
  induction l with
  | nil => intro k; rfl
  | cons w ws ih =>
    intro k
    show (commitRects ws (updateRects shown (k + 1) ws)).map
        (fun rest => { w with currentRect := (applyShown shown k w).currentRect } :: rest)
      = some (applyShown shown k w :: updateRects shown (k + 1) ws)
    rw [ih (k + 1)]
    have hw : { w with currentRect := (applyShown shown k w).currentRect } = applyShown shown k w := by
      unfold applyShown
      cases shown k <;> rfl
    simp only [hw]
    rfl

/-- Explicit form of the floating-window pass: it never hits the
out-of-bounds branch, and the result is the snapshot with closed indices
swap-removed in descending order, together with the recomputed closed set. -/
theorem editor_floating_windows_eq (st : EditorInternalState)
    (closeFlag : Nat → Bool) (shown : Nat → Option Rect) :
    st.editor_floating_windows closeFlag shown =
      some { st with
        floatingWindows := removeIndicesRev (updateRects shown 0 st.floatingWindows)
          (((List.range st.floatingWindows.length).filter (fun i => closeFlag i)).reverse)
        closedFloatingWindows := closedSetFrom closeFlag 0 (updateRects shown 0 st.floatingWindows) } := by
  show (match commitRects st.floatingWindows (updateRects shown 0 st.floatingWindows) with
    | none => none
    | some committed =>
      some { st with
        floatingWindows := removeIndicesRev committed
          (((List.range st.floatingWindows.length).filter (fun i => closeFlag i)).reverse)
        closedFloatingWindows := closedSetFrom closeFlag 0 (updateRects shown 0 st.floatingWindows) })
    = _
  rw [commitRects_updateRects]

/-- C8 amended: within one session, as long as fewer than `2^32` ids have
been issued, every call to `next_floating_window_id` returns a strictly
larger value than any earlier call (hence no id repeats); the floating
window pass — including removal of windows — never touches the counter.
Only at the `2^32`-th call does the `u32` counter wrap and ids repeat. -/
theorem next_floating_window_id_fresh_before_wrap :
    (∀ m n : Nat, m < n → n < u32Mod →
      idAt EditorInternalState.defaultState m < idAt EditorInternalState.defaultState n) ∧
    (∀ (st : EditorInternalState) (closeFlag : Nat → Bool) (shown : Nat → Option Rect)
      (st' : EditorInternalState),
      st.editor_floating_windows closeFlag shown = some st' →
      st'.nextFloatingWindowId = st.nextFloatingWindowId) := by
  constructor
  · intro m n hmn hn
    rw [idAt_default, idAt_default,
      Nat.mod_eq_of_lt (lt_trans hmn hn), Nat.mod_eq_of_lt hn]
    exact hmn
  · intro st closeFlag shown st' h
    rw [editor_floating_windows_eq] at h
    simp only [Option.some.injEq] at h
    rw [← h]

/-- Witness for `next_floating_window_id_fresh_before_wrap` at calls 0, 1. -/
theorem next_floating_window_id_fresh_before_wrap_witness :
    (0 < 1 ∧ 1 < u32Mod) ∧
      idAt EditorInternalState.defaultState 0 < idAt EditorInternalState.defaultState 1 :=
  ⟨⟨by decide, by decide⟩,
    next_floating_window_id_fresh_before_wrap.1 0 1 (by decide) (by decide)⟩

/-- A dock state with a focused pane already holding the game-view tab: the
default layout with its single pane focused. -/
def c2State : EditorInternalState :=
  { state := { panes := [⟨[TreeTab.gameView], 0⟩], focused := some 0 }
    floatingWindows := []
    nextFloatingWindowId := 0
    closedFloatingWindows := ∅ }

/-- C2 counterexample: pushing plugin `5` onto a focused pane that already
holds the game-view tab appends the new tab, but the pane's active tab ends
up being tab index 0 — the game view — not the newly added tab, because
`push_to_focused_leaf` hard-codes `TabIndex(0)` in its `set_active_tab`
call. -/
theorem push_to_focused_leaf_counterexample :
    (c2State.push_to_focused_leaf 5).state.panes[0]? =
      some ⟨[TreeTab.gameView, TreeTab.customWindow 5], 0⟩ ∧
    (c2State.push_to_focused_leaf 5).focusedActiveTab = some TreeTab.gameView ∧
    (c2State.push_to_focused_leaf 5).focusedActiveTab ≠ some (TreeTab.customWindow 5) := by
  refine ⟨rfl, rfl, by decide⟩

/-- C2 amended: after `push_to_focused_leaf::<P>` on a state with a focused
pane, the focused pane contains a new tab for `P` appended at the end of its
tab list, and the active tab of that pane becomes tab index 0 (the pane's
first tab); the new tab is therefore the active tab only when the pane was
empty before the call. -/
theorem push_to_focused_leaf_amended :
    ∀ (st : EditorInternalState) (i : Nat) (pane : Pane) (w : Nat),
      st.state.focused = some i →
      st.state.panes[i]? = some pane →
      (st.push_to_focused_leaf w).state.panes[i]? =
        some ⟨pane.tabs ++ [TreeTab.customWindow w], 0⟩ ∧
      (st.push_to_focused_leaf w).state.focused = some i := by
  intro st i pane w hf hp
  have hi : i < st.state.panes.length := by
    by_contra hcon
    rw [List.getElem?_eq_none (Nat.le_of_not_lt hcon)] at hp
    exact absurd hp (by simp)
  have h1 : (st.state.panes.set i
        ⟨pane.tabs ++ [TreeTab.customWindow w], pane.tabs.length⟩)[i]?
      = some ⟨pane.tabs ++ [TreeTab.customWindow w], pane.tabs.length⟩ :=
    List.getElem?_set_self (by simpa using hi)
  have h2 : ((st.state.panes.set i
        ⟨pane.tabs ++ [TreeTab.customWindow w], pane.tabs.length⟩).set i
        ⟨pane.tabs ++ [TreeTab.customWindow w], 0⟩)[i]?
      = some ⟨pane.tabs ++ [TreeTab.customWindow w], 0⟩ :=
    List.getElem?_set_self (by simpa using hi)
  refine ⟨?_, ?_⟩ <;>
    simp only [EditorInternalState.push_to_focused_leaf, DockState.pushTab,
      DockState.focusedLeaf, DockState.setActiveTab, hf, hp, h1, h2]

/-- Witness for `push_to_focused_leaf_amended` at the default single-pane
layout with the pane focused. -/
theorem push_to_focused_leaf_amended_witness :
    (c2State.state.focused = some 0 ∧ c2State.state.panes[0]? = some ⟨[TreeTab.gameView], 0⟩) ∧
    ((c2State.push_to_focused_leaf 5).state.panes[0]? =
        some ⟨[TreeTab.gameView, TreeTab.customWindow 5], 0⟩ ∧
      (c2State.push_to_focused_leaf 5).state.focused = some 0) :=
  ⟨⟨rfl, rfl⟩, push_to_focused_leaf_amended c2State 0 ⟨[TreeTab.gameView], 0⟩ 5 rfl rfl⟩

/-- Looking a key up right after a `HashMap::insert` of that key yields the
inserted value. -/
theorem assocLookupState_hashMapInsert (m : List (Nat × EditorWindowState))
    (k : Nat) (v : EditorWindowState) :
    assocLookupState (hashMapInsert m k v) k = some v := by
  induction m with
  | nil => simp [hashMapInsert, assocLookupState, List.find?]
  | cons kv rest ih =>
    cases hb : kv.1 == k with
    | true =>
      show assocLookupState
        (if kv.1 == k then (k, v) :: rest else kv :: hashMapInsert rest k v) k = some v
      rw [hb, if_pos rfl]
      simp [assocLookupState, List.find?]
    | false =>
      show assocLookupState
        (if kv.1 == k then (k, v) :: rest else kv :: hashMapInsert rest k v) k = some v
      rw [hb, if_neg (by simp)]
      unfold assocLookupState
      rw [List.find?_cons_of_neg _ (by simp [hb])]
      exact ih

/-- `List.find?` distributes over append. -/
theorem find?_append_right {α : Type} (p : α → Bool) (l₁ l₂ : List α)
    (h : l₁.find? p = none) : (l₁ ++ l₂).find? p = l₂.find? p := by
  induction l₁ with
  | nil => rfl
  | cons a rest ih =>
    rw [List.find?_cons] at h
    cases hp : p a with
    | true => rw [hp] at h; exact absurd h (by simp)
    | false =>
      rw [hp] at h
      show List.find? p (a :: (rest ++ l₂)) = List.find? p l₂
      rw [List.find?_cons, hp]
      exact ih h

/-- C3: registering a plugin that is not yet present succeeds; registering
it a second time on the resulting editor hits the `panic!` path (modelled as
`Except.error`); and querying the freshly registered plugin's state returns
the default-constructed value of its state type. -/
theorem add_window_registration_spec :
    ∀ (e : Editor) (p : WindowPlugin),
      assocLookupData e.windows p.typeId = none →
      ∃ e', e.add_window p = Except.ok e' ∧
        (∃ msg, e'.add_window p = Except.error msg) ∧
        e'.window_state p = some p.defaultState := by
  intro e p h
  have hfind : e.windows.find? (fun kv => kv.1 == p.typeId) = none := by
    unfold assocLookupData at h
    cases hf : e.windows.find? (fun kv => kv.1 == p.typeId) with
    | none => rfl
    | some kv => rw [hf] at h; exact absurd h (by simp)
  have hdata : (indexMapInsert e.windows p.typeId
      ⟨p.name, p.menuBarOrder, p.defaultSize⟩) =
      (e.windows ++ [(p.typeId, ⟨p.name, p.menuBarOrder, p.defaultSize⟩)], none) := by
    unfold indexMapInsert
    rw [hfind]
  refine ⟨{ e with
      windows := e.windows ++ [(p.typeId, ⟨p.name, p.menuBarOrder, p.defaultSize⟩)]
      windowStates := hashMapInsert e.windowStates p.typeId
        ⟨p.stateTypeId, p.defaultState⟩ }, ?_, ?_, ?_⟩
  · simp only [Editor.add_window, hdata]
    rfl
  · refine ⟨"window already inserted", ?_⟩
    have hfind2 : (e.windows ++
        [(p.typeId, (⟨p.name, p.menuBarOrder, p.defaultSize⟩ : EditorWindowData))]).find?
        (fun kv => kv.1 == p.typeId) =
        some (p.typeId, ⟨p.name, p.menuBarOrder, p.defaultSize⟩) := by
      rw [find?_append_right _ _ _ hfind]
      simp [List.find?]
    simp only [Editor.add_window, indexMapInsert, hfind2]
    rfl
  · show (assocLookupState (hashMapInsert e.windowStates p.typeId
        ⟨p.stateTypeId, p.defaultState⟩) p.typeId).bind
      (fun s => if s.stateType == p.stateTypeId then some s.value else none) = some p.defaultState
    rw [assocLookupState_hashMapInsert]
    simp

/-- Witness for `add_window_registration_spec` on a fresh editor and a
concrete plugin. -/
theorem add_window_registration_witness :
    (assocLookupData (Editor.new 0 false).windows 1 = none) ∧
    (∃ e', (Editor.new 0 false).add_window ⟨1, 2, "win", 0, (10, 10), 42⟩ = Except.ok e' ∧
      (∃ msg, e'.add_window ⟨1, 2, "win", 0, (10, 10), 42⟩ = Except.error msg) ∧
      e'.window_state ⟨1, 2, "win", 0, (10, 10), 42⟩ = some 42) :=
  ⟨rfl, add_window_registration_spec (Editor.new 0 false) ⟨1, 2, "win", 0, (10, 10), 42⟩ rfl⟩

/-- C5: after the per-frame input-state pass, the viewport-local pointer
position is absent whenever no pointer position is available, or the pointer
interaction position lies outside the viewport rectangle, or it lies inside
the last-known rectangle of any floating window (even if inside the
viewport). -/
theorem viewport_pointer_pos_absent :
    ∀ (e : Editor) (pos : Option Pos2) (pr hd : Bool) (st : EditorInternalState),
      (pos = none ∨
        (∃ p, pos = some p ∧ e.viewport.contains p = false) ∨
        (∃ p w, pos = some p ∧ w ∈ st.floatingWindows ∧ w.currentRect.contains p = true)) →
      (e.setup_input_state pos pr hd st).pointerState.viewportPointerPos = none := by
  intro e pos pr hd st h
  rcases pos with _ | p
  · cases pr <;> cases hd <;>
      simp [Editor.setup_input_state, Editor.setup_input_viewport_state]
  · have hcond : e.viewport.contains p = false ∨
        st.floatingWindows.any (fun w => w.currentRect.contains p) = true := by
      rcases h with h | ⟨q, hq, hc⟩ | ⟨q, w, hq, hw, hc⟩
      · exact absurd h (by simp)
      · cases hq
        exact Or.inl hc
      · cases hq
        exact Or.inr (List.any_eq_true.mpr ⟨w, hw, hc⟩)
    cases pr <;> cases hd <;>
      rcases hcond with hc | hc <;>
        simp [Editor.setup_input_state, Editor.setup_input_viewport_state,
          Editor.is_in_viewport, hc]

/-- Witness for `viewport_pointer_pos_absent`: pointer at `(700, 10)`,
outside the default `(0,0)–(640,480)` viewport. -/
theorem viewport_pointer_pos_absent_witness :
    ((some (⟨700, 10⟩ : Pos2) = none ∨
      (∃ p, some (⟨700, 10⟩ : Pos2) = some p ∧
        (Editor.new 0 false).viewport.contains p = false) ∨
      (∃ p w, some (⟨700, 10⟩ : Pos2) = some p ∧
        w ∈ EditorInternalState.defaultState.floatingWindows ∧
        w.currentRect.contains p = true))) ∧
    ((Editor.new 0 false).setup_input_state (some ⟨700, 10⟩) true true
        EditorInternalState.defaultState).pointerState.viewportPointerPos = none :=
  ⟨Or.inr (Or.inl ⟨⟨700, 10⟩, rfl, by decide⟩),
    viewport_pointer_pos_absent (Editor.new 0 false) (some ⟨700, 10⟩) true true
      EditorInternalState.defaultState (Or.inr (Or.inl ⟨⟨700, 10⟩, rfl, by decide⟩))⟩

/-- C9: after the active-path input phase of `editor_ui`, the public
`pointer_used` query reads `true` exactly when the frame's pointer
interaction position lies outside the viewport rectangle or the interaction
owner is `Editor`; in particular, with no pointer interaction position and
no editor-owned gesture in progress (owner previously `None` or
`Viewport`), the query reads `false`. -/
theorem pointer_used_query_spec :
    ∀ (e : Editor) (pos : Option Pos2) (pr : Bool),
      ((e.editor_ui_input_phase pos pr).pointer_used = true ↔
        ((∃ p, pos = some p ∧ e.viewport.contains p = false) ∨
          (e.editor_ui_input_phase pos pr).activeEditorInteraction =
            some ActiveEditorInteraction.editor)) ∧
      (({ e with activeEditorInteraction := none }).editor_ui_input_phase none pr).pointer_used
          = false ∧
      (({ e with activeEditorInteraction := some ActiveEditorInteraction.viewport }).editor_ui_input_phase none pr).pointer_used
          = false := by
  intro e pos pr
  refine ⟨?_, ?_, ?_⟩
  · rcases pos with _ | p
    · rcases ho : e.activeEditorInteraction with _ | i
      · cases pr <;>
          simp [Editor.editor_ui_input_phase, Editor.pointer_used, interactionStep,
            Editor.is_in_viewport, ho]
      · cases i <;> cases pr <;>
          simp [Editor.editor_ui_input_phase, Editor.pointer_used, interactionStep,
            Editor.is_in_viewport, ho]
    · rcases ho : e.activeEditorInteraction with _ | i
      · cases pr <;> cases hc : e.viewport.contains p <;>
          simp [Editor.editor_ui_input_phase, Editor.pointer_used, interactionStep,
            Editor.is_in_viewport, ho, hc]
      · cases i <;> cases pr <;> cases hc : e.viewport.contains p <;>
          simp [Editor.editor_ui_input_phase, Editor.pointer_used, interactionStep,
            Editor.is_in_viewport, ho, hc]
  · cases pr <;> rfl
  · cases pr <;> rfl

/-- Inserting into the sorted prefix permutes a cons. -/
theorem insertSorted_perm (x : Nat × Nat) (l : List (Nat × Nat)) :
    (insertSorted x l).Perm (x :: l) := by
  induction l with
  | nil => exact List.Perm.refl _
  | cons y ys ih =>
    show (if y.2 < x.2 then y :: insertSorted x ys else x :: y :: ys).Perm (x :: y :: ys)
    by_cases h : y.2 < x.2
    · rw [if_pos h]
      exact (ih.cons y).trans (List.Perm.swap x y ys)
    · rw [if_neg h]

/-- The stable sort is a permutation of its input: every registered window's
menu-bar callback is invoked exactly once. -/
theorem stableSortByOrder_perm (l : List (Nat × Nat)) :
    (stableSortByOrder l).Perm l := by
  induction l with
  | nil => exact List.Perm.refl _
  | cons x xs ih =>
    exact (insertSorted_perm x (stableSortByOrder xs)).trans (ih.cons x)

/-- Insertion preserves sortedness by the order key. -/
theorem insertSorted_sorted (x : Nat × Nat) (l : List (Nat × Nat))
    (h : l.Pairwise (fun p q => p.2 ≤ q.2)) :
    (insertSorted x l).Pairwise (fun p q => p.2 ≤ q.2) := by
  induction l with
  | nil => simp [insertSorted]
  | cons y ys ih =>
    rw [List.pairwise_cons] at h
    obtain ⟨h1, h2⟩ := h
    show (if y.2 < x.2 then y :: insertSorted x ys else x :: y :: ys).Pairwise
      (fun p q => p.2 ≤ q.2)
    by_cases hyx : y.2 < x.2
    · rw [if_pos hyx]
      rw [List.pairwise_cons]
      refine ⟨?_, ih h2⟩
      intro q hq
      rcases List.mem_cons.mp ((insertSorted_perm x ys).mem_iff.mp hq) with hq | hq
      · rw [hq]
        exact Nat.le_of_lt hyx
      · exact h1 q hq
    · rw [if_neg hyx]
      rw [List.pairwise_cons]
      refine ⟨?_, List.pairwise_cons.mpr ⟨h1, h2⟩⟩
      intro q hq
      rcases List.mem_cons.mp hq with hq | hq
      · exact hq ▸ Nat.le_of_not_lt hyx
      · exact Nat.le_trans (Nat.le_of_not_lt hyx) (h1 q hq)

/-- Insertion preserves the tie-break invariant: when the inserted element's
registration index is below every index already present, any two elements
with equal order keys end up in registration order. -/
theorem insertSorted_stable (x : Nat × Nat) (l : List (Nat × Nat))
    (hall : ∀ q ∈ l, x.1 < q.1)
    (h : l.Pairwise (fun p q => p.2 = q.2 → p.1 < q.1)) :
    (insertSorted x l).Pairwise (fun p q => p.2 = q.2 → p.1 < q.1) := by
  induction l with
  | nil => simp [insertSorted]
  | cons y ys ih =>
    rw [List.pairwise_cons] at h
    obtain ⟨h1, h2⟩ := h
    have hall' : ∀ q ∈ ys, x.1 < q.1 := fun q hq => hall q (List.mem_cons_of_mem y hq)
    show (if y.2 < x.2 then y :: insertSorted x ys else x :: y :: ys).Pairwise
      (fun p q => p.2 = q.2 → p.1 < q.1)
    by_cases hyx : y.2 < x.2
    · rw [if_pos hyx]
      rw [List.pairwise_cons]
      refine ⟨?_, ih hall' h2⟩
      intro q hq
      rcases List.mem_cons.mp ((insertSorted_perm x ys).mem_iff.mp hq) with hq | hq
      · intro heq
        rw [hq] at heq
        exact absurd heq (Nat.ne_of_lt hyx)
      · exact h1 q hq
    · rw [if_neg hyx]
      rw [List.pairwise_cons]
      refine ⟨?_, List.pairwise_cons.mpr ⟨h1, h2⟩⟩
      intro q hq
      rcases List.mem_cons.mp hq with hq | hq
      · exact fun _ => hq ▸ hall y (List.mem_cons_self y ys)
      · exact fun _ => hall q (List.mem_cons_of_mem y hq)

/-- Every index produced by `enumOrders k` is at least `k`. -/
theorem enumOrders_ge (k : Nat) (ws : List EditorWindowData) :
    ∀ p ∈ enumOrders k ws, k ≤ p.1 := by
  induction ws generalizing k with
  | nil => intro p hp; exact absurd hp (by simp [enumOrders])
  | cons w ws ih =>
    intro p hp
    rcases List.mem_cons.mp hp with hp | hp
    · rw [hp]
    · exact Nat.le_of_succ_le (ih (k + 1) p hp)

/-- The enumeration carries strictly increasing registration indices. -/
theorem enumOrders_indices (k : Nat) (ws : List EditorWindowData) :
    (enumOrders k ws).Pairwise (fun p q => p.1 < q.1) := by
  induction ws generalizing k with
  | nil => simp [enumOrders]
  | cons w ws ih =>
    show List.Pairwise (fun p q => p.1 < q.1)
      ((k, w.menuBarOrder) :: enumOrders (k + 1) ws)
    rw [List.pairwise_cons]
    refine ⟨?_, ih (k + 1)⟩
    intro q hq
    exact Nat.lt_of_lt_of_le (Nat.lt_succ_self k) (enumOrders_ge (k + 1) ws q hq)

/-- C4: for every registration sequence, the menu-bar draw order is
non-decreasing in the declared `menu_bar_order`, ties are resolved in
registration order (stable sort), every window is drawn exactly once, and in
particular registering `A` with order 10 then `B` with order 5 draws `B`
before `A`. -/
theorem draw_window_menu_items_sorted_stable :
    (∀ ws : List EditorWindowData,
      (draw_window_menu_items ws).Pairwise (fun p q => p.2 ≤ q.2) ∧
      (draw_window_menu_items ws).Pairwise (fun p q => p.2 = q.2 → p.1 < q.1) ∧
      (draw_window_menu_items ws).Perm (enumOrders 0 ws)) ∧
    draw_window_menu_items [⟨"A", 10, (1, 1)⟩, ⟨"B", 5, (1, 1)⟩] = [(1, 5), (0, 10)] := by
  constructor
  · intro ws
    have sorted : ∀ l : List (Nat × Nat),
        (stableSortByOrder l).Pairwise (fun p q => p.2 ≤ q.2) := by
      intro l
      induction l with
      | nil => simp [stableSortByOrder]
      | cons x xs ih => exact insertSorted_sorted x (stableSortByOrder xs) ih
    have stable : ∀ l : List (Nat × Nat), l.Pairwise (fun p q => p.1 < q.1) →
        (stableSortByOrder l).Pairwise (fun p q => p.2 = q.2 → p.1 < q.1) := by
      intro l
      induction l with
      | nil => intro _; simp [stableSortByOrder]
      | cons x xs ih =>
        intro h
        rw [List.pairwise_cons] at h
        obtain ⟨h1, h2⟩ := h
        refine insertSorted_stable x (stableSortByOrder xs) ?_ (ih h2)
        intro q hq
        exact h1 q ((stableSortByOrder_perm xs).mem_iff.mp hq)
    exact ⟨sorted (enumOrders 0 ws),
      stable (enumOrders 0 ws) (enumOrders_indices 0 ws),
      stableSortByOrder_perm (enumOrders 0 ws)⟩
  · rfl

/-- `swap_remove` at an in-bounds index removes exactly the element at that
index, up to reordering. -/
theorem swapRemove_perm (l : List FloatingWindow) (i : Nat) (h : i < l.length) :
    (l.getD i default :: swapRemove l i).Perm l := by
  induction l generalizing i with
  | nil => exact absurd h (by simp)
  | cons a l ih =>
    cases i with
    | zero =>
      cases l with
      | nil => exact List.Perm.refl [a]
      | cons b bs =>
        cases hl : (b :: bs).getLast? with
        | none => exact absurd (List.getLast?_eq_none_iff.mp hl) (by simp)
        | some c =>
          have hsw : swapRemove (a :: b :: bs) 0 = c :: (b :: bs).dropLast := by
            show (match (b :: bs).getLast? with
              | some x => x :: (b :: bs).dropLast
              | none => ([] : List FloatingWindow)) = c :: (b :: bs).dropLast
            rw [hl]
          rw [hsw]
          show (a :: c :: (b :: bs).dropLast).Perm (a :: b :: bs)
          refine List.Perm.cons a ?_
          have hle : (b :: bs).getLast (by simp) = c := by
            have := List.getLast?_eq_getLast (b :: bs) (by simp)
            rw [hl] at this
            exact (Option.some.injEq _ _ ▸ this).symm
          have hconc : (b :: bs).dropLast ++ [c] = b :: bs := by
            rw [← hle]
            exact List.dropLast_concat_getLast (by simp)
          calc (c :: (b :: bs).dropLast).Perm ((b :: bs).dropLast ++ [c]) :=
            (List.perm_append_singleton c _).symm
            _ = b :: bs := hconc
    | succ i =>
      have hi : i < l.length := by simpa using h
      show ((a :: l).getD (i + 1) default :: a :: swapRemove l i).Perm (a :: l)
      have hg : (a :: l).getD (i + 1) default = l.getD i default := rfl
      rw [hg]
      exact (List.Perm.swap a (l.getD i default) (swapRemove l i)).trans ((ih i hi).cons a)

/-- `swap_remove` at an in-bounds index shortens the list by one. -/
theorem swapRemove_length (l : List FloatingWindow) (i : Nat) (h : i < l.length) :
    (swapRemove l i).length = l.length - 1 := by
  have h1 : (swapRemove l i).length + 1 = l.length := by
    simpa using (swapRemove_perm l i h).length_eq
  omega

/-- `swap_remove` leaves every position below the removed index unchanged. -/
theorem swapRemove_getD_lt (l : List FloatingWindow) (i j : Nat)
    (h : i < l.length) (hj : j < i) :
    (swapRemove l i).getD j default = l.getD j default := by
  induction l generalizing i j with
  | nil => exact absurd h (by simp)
  | cons a l ih =>
    cases i with
    | zero => omega
    | succ i =>
      cases j with
      | zero => rfl
      | succ j =>
        show (swapRemove l i).getD j default = l.getD j default
        exact ih i j (by simpa using h) (by omega)

/-- Applying the `swap_remove` loop over a descending list of in-bounds
indices removes exactly the elements at those indices, up to reordering:
re-appending the removed elements recovers the original list as a
permutation. -/
theorem removeIndicesRev_perm :
    ∀ (is : List Nat) (l : List FloatingWindow),
      is.Pairwise (fun a b => b < a) →
      (∀ i ∈ is, i < l.length) →
      (removeIndicesRev l is ++ is.map (fun i => l.getD i default)).Perm l := by
  intro is
  induction is with
  | nil =>
    intro l _ _
    rw [List.map_nil, List.append_nil]
    show (removeIndicesRev l []).Perm l
    exact List.Perm.refl l
  | cons j rest ih =>
    intro l hdesc hb
    rw [List.pairwise_cons] at hdesc
    obtain ⟨hj_gt, hdesc'⟩ := hdesc
    have hjl : j < l.length := hb j (List.mem_cons_self j rest)
    have hb' : ∀ i ∈ rest, i < (swapRemove l j).length := by
      intro i hi
      rw [swapRemove_length l j hjl]
      have h1 : i < j := hj_gt i hi
      omega
    have hmap : rest.map (fun i => (swapRemove l j).getD i default)
        = rest.map (fun i => l.getD i default) :=
      List.map_congr_left (fun i hi => swapRemove_getD_lt l j i hjl (hj_gt i hi))
    show (removeIndicesRev (swapRemove l j) rest ++
      (l.getD j default :: rest.map (fun i => l.getD i default))).Perm l
    have step2 : (removeIndicesRev (swapRemove l j) rest ++
        rest.map (fun i => l.getD i default)).Perm (swapRemove l j) := by
      rw [← hmap]
      exact ih (swapRemove l j) hdesc' hb'
    exact List.perm_middle.trans ((step2.cons _).trans (swapRemove_perm l j hjl))

/-- The snapshot rect update preserves the list length. -/
theorem updateRects_length (shown : Nat → Option Rect) :
    ∀ (l : List FloatingWindow) (k : Nat), (updateRects shown k l).length = l.length := by
  intro l
  induction l with
  | nil => intro k; rfl
  | cons w ws ih =>
    intro k
    show (updateRects shown (k + 1) ws).length + 1 = ws.length + 1
    rw [ih (k + 1)]

/-- Entry `j` of the updated snapshot is entry `j` of the original list with
its rect updated at loop index `k + j`. -/
theorem updateRects_getD (shown : Nat → Option Rect) :
    ∀ (l : List FloatingWindow) (k j : Nat), j < l.length →
      (updateRects shown k l).getD j default = applyShown shown (k + j) (l.getD j default) := by
  intro l
  induction l with
  | nil => intro k j h; exact absurd h (by simp)
  | cons w ws ih =>
    intro k j h
    cases j with
    | zero => rfl
    | succ j =>
      show (updateRects shown (k + 1) ws).getD j default
        = applyShown shown (k + (j + 1)) (ws.getD j default)
      have harith : k + 1 + j = k + (j + 1) := by omega
      rw [ih (k + 1) j (by simpa using h), harith]

/-- Updating a floating window's rectangle never changes its plugin
identity. -/
theorem applyShown_window (shown : Nat → Option Rect) (i : Nat) (w : FloatingWindow) :
    (applyShown shown i w).window = w.window := by
  unfold applyShown
  cases shown i <;> rfl

/-- Characterisation of the per-redraw closed set built by the loop. -/
theorem mem_closedSetFrom (f : Nat → Bool) (P : Nat) :
    ∀ (l : List FloatingWindow) (k : Nat),
      P ∈ closedSetFrom f k l ↔
        ∃ j, j < l.length ∧ f (k + j) = true ∧ (l.getD j default).window = P := by
  intro l
  induction l with
  | nil => intro k; simp [closedSetFrom]
  | cons w ws ih =>
    intro k
    show P ∈ (if f k then insert w.window (closedSetFrom f (k + 1) ws)
        else closedSetFrom f (k + 1) ws) ↔ _
    by_cases hf : f k
    · rw [if_pos hf, Finset.mem_insert]
      constructor
      · rintro (h | h)
        · exact ⟨0, by simp, by simpa using hf, h.symm⟩
        · obtain ⟨j, hj, hfj, hw⟩ := (ih (k + 1)).mp h
          have harith : k + 1 + j = k + (j + 1) := by omega
          rw [harith] at hfj
          exact ⟨j + 1, by simpa using hj, hfj, hw⟩
      · rintro ⟨j, hj, hfj, hw⟩
        cases j with
        | zero => exact Or.inl hw.symm
        | succ j =>
          refine Or.inr ((ih (k + 1)).mpr ⟨j, by simpa using hj, ?_, hw⟩)
          have harith : k + 1 + j = k + (j + 1) := by omega
          rw [harith]
          exact hfj
    · rw [if_neg hf]
      rw [ih (k + 1)]
      constructor
      · rintro ⟨j, hj, hfj, hw⟩
        have harith : k + 1 + j = k + (j + 1) := by omega
        rw [harith] at hfj
        exact ⟨j + 1, by simpa using hj, hfj, hw⟩
      · rintro ⟨j, hj, hfj, hw⟩
        cases j with
        | zero =>
          rw [Nat.add_zero] at hfj
          exact absurd hfj hf
        | succ j =>
          have harith : k + 1 + j = k + (j + 1) := by omega
          exact ⟨j, by simpa using hj, by rw [harith]; exact hfj, hw⟩

/-- Reading every position of a list back in order reproduces the list. -/
theorem map_getD_range (l : List FloatingWindow) :
    (List.range l.length).map (fun i => l.getD i default) = l := by
  apply List.ext_getElem
  · simp
  · intro i h1 h2
    rw [List.getElem_map, List.getElem_range, List.getD_eq_getElem]

/-- The list produced by the removal loop of the floating-window pass is,
as a multiset, exactly the updated snapshot entries whose chrome was not
closed. -/
theorem pass_result_multiset (st : EditorInternalState) (closeFlag : Nat → Bool)
    (shown : Nat → Option Rect) :
    (↑(removeIndicesRev (updateRects shown 0 st.floatingWindows)
        (((List.range st.floatingWindows.length).filter (fun i => closeFlag i)).reverse))
      : Multiset FloatingWindow)
      = ↑(keptAfterPass st closeFlag shown) := by
  have hlen : (updateRects shown 0 st.floatingWindows).length = st.floatingWindows.length :=
    updateRects_length shown st.floatingWindows 0
  have hdesc : ((List.range st.floatingWindows.length).filter
      (fun i => closeFlag i)).reverse.Pairwise (fun a b => b < a) := by
    rw [List.pairwise_reverse]
    exact (List.pairwise_lt_range st.floatingWindows.length).filter (fun i => closeFlag i)
  have hbound : ∀ i ∈ ((List.range st.floatingWindows.length).filter
      (fun i => closeFlag i)).reverse, i < (updateRects shown 0 st.floatingWindows).length := by
    intro i hi
    rw [List.mem_reverse] at hi
    rw [hlen]
    exact List.mem_range.mp (List.mem_filter.mp hi).1
  have hperm := removeIndicesRev_perm _ _ hdesc hbound
  have hmaprev : (((List.range st.floatingWindows.length).filter
        (fun i => closeFlag i)).reverse).map
        (fun i => (updateRects shown 0 st.floatingWindows).getD i default)
      = (((List.range st.floatingWindows.length).filter (fun i => closeFlag i)).map
        (fun i => (updateRects shown 0 st.floatingWindows).getD i default)).reverse :=
    List.map_reverse _ _
  have hsplit := (List.filter_append_perm (fun i => closeFlag i)
      (List.range st.floatingWindows.length)).map
      (fun i => (updateRects shown 0 st.floatingWindows).getD i default)
  rw [List.map_append] at hsplit
  have hrange : (List.range st.floatingWindows.length).map
      (fun i => (updateRects shown 0 st.floatingWindows).getD i default)
      = updateRects shown 0 st.floatingWindows := by
    have := map_getD_range (updateRects shown 0 st.floatingWindows)
    rw [hlen] at this
    exact this
  rw [hrange] at hsplit
  have e1 : (↑(removeIndicesRev (updateRects shown 0 st.floatingWindows)
        (((List.range st.floatingWindows.length).filter (fun i => closeFlag i)).reverse))
      : Multiset FloatingWindow)
      + ↑((((List.range st.floatingWindows.length).filter (fun i => closeFlag i)).map
          (fun i => (updateRects shown 0 st.floatingWindows).getD i default)))
      = ↑(updateRects shown 0 st.floatingWindows) := by
    calc (↑(removeIndicesRev (updateRects shown 0 st.floatingWindows)
          (((List.range st.floatingWindows.length).filter (fun i => closeFlag i)).reverse))
        : Multiset FloatingWindow)
        + ↑((((List.range st.floatingWindows.length).filter (fun i => closeFlag i)).map
            (fun i => (updateRects shown 0 st.floatingWindows).getD i default)))
        = ↑(removeIndicesRev (updateRects shown 0 st.floatingWindows)
          (((List.range st.floatingWindows.length).filter (fun i => closeFlag i)).reverse))
        + ↑(((((List.range st.floatingWindows.length).filter (fun i => closeFlag i)).map
            (fun i => (updateRects shown 0 st.floatingWindows).getD i default)).reverse)) := by
          rw [Multiset.coe_reverse]
      _ = ↑(removeIndicesRev (updateRects shown 0 st.floatingWindows)
          (((List.range st.floatingWindows.length).filter (fun i => closeFlag i)).reverse)
          ++ ((((List.range st.floatingWindows.length).filter (fun i => closeFlag i)).reverse).map
            (fun i => (updateRects shown 0 st.floatingWindows).getD i default))) := by
          rw [hmaprev, Multiset.coe_add]
      _ = ↑(updateRects shown 0 st.floatingWindows) := Multiset.coe_eq_coe.mpr hperm
  have e2 : (↑(keptAfterPass st closeFlag shown) : Multiset FloatingWindow)
      + ↑((((List.range st.floatingWindows.length).filter (fun i => closeFlag i)).map
          (fun i => (updateRects shown 0 st.floatingWindows).getD i default)))
      = ↑(updateRects shown 0 st.floatingWindows) := by
    rw [add_comm, Multiset.coe_add]
    exact Multiset.coe_eq_coe.mpr hsplit
  exact add_right_cancel (e1.trans e2.symm)

/-- C10: when the plugin content callbacks leave the floating-window list
alone, the floating-window pass never indexes out of bounds in its
rect-commit loop (the `Option` never comes back `none`), and the resulting
live list consists — as a multiset, since `swap_remove` does not preserve
the survivors' relative order — of exactly the snapshot entries whose
chrome was not closed, each carrying the rectangle recorded this pass. -/
theorem editor_floating_windows_no_panic_exact :
    ∀ (st : EditorInternalState) (closeFlag : Nat → Bool) (shown : Nat → Option Rect),
      ∃ st', st.editor_floating_windows closeFlag shown = some st' ∧
        (↑st'.floatingWindows : Multiset FloatingWindow)
          = ↑(keptAfterPass st closeFlag shown) := by
  intro st f s
  exact ⟨_, editor_floating_windows_eq st f s, pass_result_multiset st f s⟩

/-- Membership in the pass result agrees with membership in the kept-entry
list. -/
theorem mem_pass_result (st : EditorInternalState) (f : Nat → Bool) (s : Nat → Option Rect)
    (x : FloatingWindow) :
    x ∈ removeIndicesRev (updateRects s 0 st.floatingWindows)
        (((List.range st.floatingWindows.length).filter (fun i => f i)).reverse) ↔
      x ∈ keptAfterPass st f s := by
  have h := pass_result_multiset st f s
  constructor <;> intro hx
  · exact Multiset.mem_coe.mp (h ▸ Multiset.mem_coe.mpr hx)
  · exact Multiset.mem_coe.mp (h.symm ▸ Multiset.mem_coe.mpr hx)

/-- Unfolded membership in the kept-entry list. -/
theorem mem_keptAfterPass (st : EditorInternalState) (f : Nat → Bool) (s : Nat → Option Rect)
    (x : FloatingWindow) :
    x ∈ keptAfterPass st f s ↔
      ∃ i, i < st.floatingWindows.length ∧ f i = false ∧
        x = (updateRects s 0 st.floatingWindows).getD i default := by
  unfold keptAfterPass
  constructor
  · intro hx
    obtain ⟨i, hi, hxe⟩ := List.mem_map.mp hx
    obtain ⟨hir, hif⟩ := List.mem_filter.mp hi
    exact ⟨i, List.mem_range.mp hir, by simpa using hif, hxe.symm⟩
  · rintro ⟨i, hi, hif, hxe⟩
    exact List.mem_map.mpr
      ⟨i, List.mem_filter.mpr ⟨List.mem_range.mpr hi, by simpa using hif⟩, hxe.symm⟩

/-- C7: for a plugin `P` with exactly one floating window, closing that
window's chrome during a pass makes `has_floating(P)` false and
`was_closed_this_frame(P)` true, and after any further pass in which no
window of `P` exists to be closed, `was_closed_this_frame(P)` reads false
again: the closed set is cleared and recomputed each pass, not
accumulated. -/
theorem floating_window_close_lifecycle :
    ∀ (st : EditorInternalState) (P : Nat) (closeFlag : Nat → Bool)
      (shown : Nat → Option Rect) (i₀ : Nat),
      i₀ < st.floatingWindows.length →
      (st.floatingWindows.getD i₀ default).window = P →
      (∀ j, j < st.floatingWindows.length → j ≠ i₀ →
        (st.floatingWindows.getD j default).window ≠ P) →
      closeFlag i₀ = true →
      ∃ st', st.editor_floating_windows closeFlag shown = some st' ∧
        st'.has_floating_window P = false ∧
        st'.closed_floating_window P = true ∧
        ∀ (closeFlag₂ : Nat → Bool) (shown₂ : Nat → Option Rect),
          ∃ st'', st'.editor_floating_windows closeFlag₂ shown₂ = some st'' ∧
            st''.closed_floating_window P = false := by
  intro st P f s i₀ hi₀ hP hothers hclose
  have hnomem : ∀ x ∈ removeIndicesRev (updateRects s 0 st.floatingWindows)
      (((List.range st.floatingWindows.length).filter (fun i => f i)).reverse),
      x.window ≠ P := by
    intro x hx
    obtain ⟨i, hi, hif, hxe⟩ := (mem_keptAfterPass st f s x).mp ((mem_pass_result st f s x).mp hx)
    have hne : i ≠ i₀ := by
      intro he
      rw [he, hclose] at hif
      exact absurd hif (by simp)
    rw [hxe, updateRects_getD s st.floatingWindows 0 i hi, applyShown_window]
    exact hothers i hi hne
  refine ⟨_, editor_floating_windows_eq st f s, ?_, ?_, ?_⟩
  · show (removeIndicesRev (updateRects s 0 st.floatingWindows)
        (((List.range st.floatingWindows.length).filter (fun i => f i)).reverse)).any
        (fun fw => fw.window == P) = false
    cases hb : (removeIndicesRev (updateRects s 0 st.floatingWindows)
        (((List.range st.floatingWindows.length).filter (fun i => f i)).reverse)).any
        (fun fw => fw.window == P) with
    | false => rfl
    | true =>
      obtain ⟨x, hx, hxP⟩ := List.any_eq_true.mp hb
      exact absurd (by simpa using hxP) (hnomem x hx)
  · show decide (P ∈ closedSetFrom f 0 (updateRects s 0 st.floatingWindows)) = true
    rw [decide_eq_true_eq]
    refine (mem_closedSetFrom f P _ 0).mpr ⟨i₀, ?_, ?_, ?_⟩
    · rw [updateRects_length]
      exact hi₀
    · rw [Nat.zero_add]
      exact hclose
    · rw [updateRects_getD s st.floatingWindows 0 i₀ hi₀, applyShown_window]
      exact hP
  · intro f₂ s₂
    refine ⟨_, editor_floating_windows_eq _ f₂ s₂, ?_⟩
    show decide (P ∈ closedSetFrom f₂ 0 (updateRects s₂ 0
        (removeIndicesRev (updateRects s 0 st.floatingWindows)
          (((List.range st.floatingWindows.length).filter (fun i => f i)).reverse)))) = false
    rw [decide_eq_false_iff_not]
    intro hmem
    obtain ⟨j, hj, _, hw⟩ := (mem_closedSetFrom f₂ P _ 0).mp hmem
    rw [updateRects_length] at hj
    rw [updateRects_getD s₂ _ 0 j hj, applyShown_window] at hw
    have hmemL : (removeIndicesRev (updateRects s 0 st.floatingWindows)
        (((List.range st.floatingWindows.length).filter (fun i => f i)).reverse)).getD j default
        ∈ removeIndicesRev (updateRects s 0 st.floatingWindows)
          (((List.range st.floatingWindows.length).filter (fun i => f i)).reverse) := by
      rw [List.getD_eq_getElem _ _ hj]
      exact List.getElem_mem hj
    exact hnomem _ hmemL hw

/-- A session state holding exactly one floating window, for plugin 7. -/
def c7State : EditorInternalState :=
  { state := { panes := [⟨[TreeTab.gameView], 0⟩], focused := none }
    floatingWindows := [⟨7, 0, none, ⟨⟨0, 0⟩, ⟨100, 100⟩⟩⟩]
    nextFloatingWindowId := 1
    closedFloatingWindows := ∅ }

/-- Witness for `floating_window_close_lifecycle`: one floating window for
plugin 7, closed during the pass. -/
theorem floating_window_close_lifecycle_witness :
    (0 < c7State.floatingWindows.length ∧
      (c7State.floatingWindows.getD 0 default).window = 7 ∧
      (∀ j, j < c7State.floatingWindows.length → j ≠ 0 →
        (c7State.floatingWindows.getD j default).window ≠ 7) ∧
      (fun i => decide (i = 0)) 0 = true) ∧
    (∃ st', c7State.editor_floating_windows (fun i => decide (i = 0)) (fun _ => none)
        = some st' ∧
      st'.has_floating_window 7 = false ∧
      st'.closed_floating_window 7 = true ∧
      ∀ (closeFlag₂ : Nat → Bool) (shown₂ : Nat → Option Rect),
        ∃ st'', st'.editor_floating_windows closeFlag₂ shown₂ = some st'' ∧
          st''.closed_floating_window 7 = false) :=
  ⟨⟨by decide, by decide, by decide, by decide⟩,
    floating_window_close_lifecycle c7State 7 (fun i => decide (i = 0)) (fun _ => none) 0
      (by decide) (by decide) (by decide) (by decide)⟩
